/-
  Verification of the TurboPush chunked-upload library.

  Shallow embedding of the client (`TurboPush.ts`) and the server endpoint
  (`TurboPushEndpoint.php`):
  * the chunk planner `createChunks`;
  * the constructor's configuration normalisation (JavaScript `||` defaults
    are modelled by `jsOr`, which treats a provided `0` as falsy);
  * the per-file upload scheduler `uploadChunksInParallel`, modelled as a
    state machine: `uploadNext` / the inner `while` launch loop are pure
    functions on `RunState`, and the settlement of one in-flight transport
    (its `.then`/`.catch` handler followed by the `.finally` that decrements
    the active count and re-enters `uploadNext`) is one atomic step of the
    relation `RunStep`, matching the event loop's delivery of one transport
    completion per task;
  * the session-level `pause` / `resume` / `push` logic;
  * the server's `finalizeUpload` reassembly, with the filesystem modelled
    as an optional temp directory of optional chunk byte lists plus an
    optional destination file.
-/
import Mathlib

namespace TurboPush

/-- Chunk metadata, from the client's `ChunkInfo` interface.  The `blob` is
represented by its byte range `[start, stop)`; `end` is `stop` because `end`
is a Lean keyword. -/
structure ChunkInfo where
  index : Nat
  start : Nat
  stop : Nat
  attempts : Nat
  uploaded : Bool
deriving Repr, DecidableEq

/-- Default chunk used with `List.getD`. -/
def dfltChunk : ChunkInfo := ⟨0, 0, 0, 0, false⟩

/-- `createChunks` from `TurboPush.ts`: `totalChunks = Math.ceil(size / chunkSize)`
chunks, chunk `i` covering `[i*chunkSize, min(i*chunkSize + chunkSize, size))`. -/
def createChunks (chunkSize fileSize : Nat) : List ChunkInfo :=
  (List.range ((fileSize + chunkSize - 1) / chunkSize)).map (fun i =>
    { index := i
      start := i * chunkSize
      stop := min (i * chunkSize + chunkSize) fileSize
      attempts := 0
      uploaded := false })

/-- The configuration the caller passes to the constructor.  Only the numeric
fields matter for the claims; `none` models an absent field. -/
structure TurboPushConfigIn where
  chunkSize : Option Int := none
  maxConcurrentUploads : Option Int := none
  maxRetries : Option Int := none
  retryDelay : Option Int := none
  timeout : Option Int := none
deriving Repr, DecidableEq

/-- The stored `Required<TurboPushConfig>` numeric fields. -/
structure StoredConfig where
  chunkSize : Int
  maxConcurrentUploads : Int
  maxRetries : Int
  retryDelay : Int
  timeout : Int
deriving Repr, DecidableEq

/-- JavaScript `v || d` for an optional numeric field: an absent field or a
provided `0` (falsy) yields the default. -/
def jsOr (v : Option Int) (d : Int) : Int :=
  match v with
  | none => d
  | some x => if x = 0 then d else x

/-- The constructor's configuration normalisation (`TurboPush.ts` lines 71-80):
`chunkSize: config.chunkSize || 1024*1024`,
`maxConcurrentUploads: Math.max(1, Math.min(10, config.maxConcurrentUploads || 3))`,
`maxRetries: Math.max(0, config.maxRetries || 3)`,
`retryDelay: Math.max(100, config.retryDelay || 1000)`,
`timeout: Math.max(5000, config.timeout || 30000)`. -/
def mkStoredConfig (c : TurboPushConfigIn) : StoredConfig :=
  { chunkSize := jsOr c.chunkSize (1024 * 1024)
    maxConcurrentUploads := max 1 (min 10 (jsOr c.maxConcurrentUploads 3))
    maxRetries := max 0 (jsOr c.maxRetries 3)
    retryDelay := max 100 (jsOr c.retryDelay 1000)
    timeout := max 5000 (jsOr c.timeout 30000) }

/-- `setChunkSize` (`TurboPush.ts` lines 138-141): `Math.max(64 * 1024, bytes)`. -/
def setChunkSize (cfg : StoredConfig) (bytes : Int) : StoredConfig :=
  { cfg with chunkSize := max (64 * 1024) bytes }

/-- The 64 KiB chunk-size floor that `setChunkSize` enforces. -/
def chunkSizeFloor : Int := 64 * 1024

/- ## The per-file upload scheduler (`uploadChunksInParallel`) -/

/-- Outcome of one transport attempt (`uploadChunk`'s promise): success, or a
rejection carrying the error message. -/
inductive Outcome where
  | ok
  | fail (msg : String)
deriving Repr, DecidableEq

/-- Record of one `uploadChunk` invocation: which store index was launched,
its attempt counter and `uploaded` flag at call time, and the suspension
`uploadChunk` performs before the transport call. -/
structure LaunchRec where
  idx : Nat
  attempts : Nat
  uploadedAtLaunch : Bool
  delay : Nat
deriving Repr, DecidableEq

/-- The delay `uploadChunk` applies before its transport call
(`if (chunk.attempts > 0) await this.sleep(this.config.retryDelay * chunk.attempts)`). -/
def uploadChunkDelay (retryDelay attempts : Nat) : Nat :=
  if attempts > 0 then retryDelay * attempts else 0

/-- The error message recorded when a chunk exhausts its retries:
`` `Failed chunk ${chunk.index}: ${error.message}` ``. -/
def failMsg (index : Nat) (msg : String) : String :=
  "Failed chunk " ++ toString index ++ ": " ++ msg

/-- State of one `uploadChunksInParallel` run.  `store` is the `chunks` array
(the shared mutable `ChunkInfo` objects); `pending` is the `pendingChunks`
array as indices into `store`; `active` is the multiset of in-flight store
indices (`activeCount` is its length); `settled` is the run's promise:
`none` = pending, `some none` = resolved, `some (some m)` = rejected with
message `m`.  `launches` is a log of the `uploadChunk` calls made. -/
structure RunState where
  store : List ChunkInfo
  pending : List Nat
  currentIndex : Nat
  active : List Nat
  completedCount : Nat
  uploadedBytes : Nat
  hasError : Bool
  errorMessage : String
  settled : Option (Option String)
  paused : Bool
  launches : List LaunchRec
deriving Repr, DecidableEq

/-- The portion of `pending` not yet dispatched (`pendingChunks` from
`currentIndex` on). -/
def queue (s : RunState) : List Nat := s.pending.drop s.currentIndex

/-- The message the run rejects with:
`reject(new Error(errorMessage || 'Some chunks failed'))`. -/
def errMsgOf (s : RunState) : String :=
  if s.errorMessage = "" then "Some chunks failed" else s.errorMessage

/-- The body of `uploadNext`'s `while` loop: dispatch
`pendingChunks[currentIndex]` — increment `currentIndex` and the active
count and invoke `uploadChunk`, which is logged in `launches` together with
the chunk's attempt counter, `uploaded` flag and retry suspension at call
time.  The loop guard guarantees `currentIndex` is in range, so the `getD`
default is never read. -/
def launchChunk (rd : Nat) (s : RunState) : RunState :=
  let j := s.pending.getD s.currentIndex 0
  let c := s.store.getD j dfltChunk
  { s with
    currentIndex := s.currentIndex + 1
    active := s.active ++ [j]
    launches := s.launches ++
      [{ idx := j, attempts := c.attempts, uploadedAtLaunch := c.uploaded,
         delay := uploadChunkDelay rd c.attempts }] }

/-- `uploadNext`'s `while` loop, fuelled: launch chunks while the active
count is below `maxConcurrentUploads`, the queue is non-empty, and the run
is neither paused nor failed.  The fuel `pending.length - currentIndex` is
an upper bound on the iterations (each iteration moves `currentIndex` toward
the fixed `pending.length`), so the fuelled loop is exactly the `while`. -/
def launchLoopAux (mc rd : Nat) : Nat → RunState → RunState
  | 0, s => s
  | fuel + 1, s =>
    if s.active.length < mc ∧ s.currentIndex < s.pending.length ∧
        s.paused = false ∧ s.hasError = false then
      launchLoopAux mc rd fuel (launchChunk rd s)
    else s

/-- The `while` loop of `uploadNext`. -/
def launchLoop (mc rd : Nat) (s : RunState) : RunState :=
  launchLoopAux mc rd (s.pending.length - s.currentIndex) s

/-- `uploadNext` (`TurboPush.ts` lines 314-358): the completion check runs
first (resolve when `completedCount == chunks.length`, reject otherwise),
then the pause/error short-circuit, then the launch loop. -/
def uploadNext (mc rd : Nat) (s : RunState) : RunState :=
  if s.pending.length ≤ s.currentIndex ∧ s.active.length = 0 then
    if s.settled.isSome then s
    else if s.completedCount = s.store.length then { s with settled := some none }
    else { s with settled := some (some (errMsgOf s)) }
  else if s.paused = true ∨ s.hasError = true then s
  else launchLoop mc rd s

/-- Settlement of the in-flight transport for store index `j` with outcome
`o`: the `.then` handler (mark uploaded, bump `completedCount` and the byte
counter) or the `.catch` handler (requeue at the back with an incremented
attempt counter if below `maxRetries`, otherwise record the failure),
followed by the `.finally` (decrement the active count and call
`uploadNext`).  One transport completion is delivered per event-loop task,
so this whole sequence is one atomic step. -/
def settleStep (mc rd mr : Nat) (s : RunState) (j : Nat) (o : Outcome) : RunState :=
  let c := s.store.getD j dfltChunk
  let s1 : RunState :=
    match o with
    | .ok =>
      { s with
        store := s.store.set j { c with uploaded := true }
        completedCount := s.completedCount + 1
        uploadedBytes := s.uploadedBytes + (c.stop - c.start) }
    | .fail msg =>
      if c.attempts < mr then
        { s with
          store := s.store.set j { c with attempts := c.attempts + 1 }
          pending := s.pending ++ [j] }
      else
        { s with hasError := true, errorMessage := failMsg c.index msg }
  uploadNext mc rd { s1 with active := s1.active.erase j }

/-- The state of a fresh `uploadChunksInParallel(fileId, chunks, ...)` call,
after the synchronous part of the promise executor has run:
`pendingChunks = [...chunks.filter(c => !c.uploaded)]`,
`completedCount = chunks.filter(c => c.uploaded).length`, then the initial
`uploadNext()` call. -/
def initRun (mc rd : Nat) (chunks : List ChunkInfo) : RunState :=
  uploadNext mc rd
    { store := chunks
      pending := (List.range chunks.length).filter
        (fun j => (chunks.getD j dfltChunk).uploaded = false)
      currentIndex := 0
      active := []
      completedCount := (chunks.filter (fun c => c.uploaded)).length
      uploadedBytes := 0
      hasError := false
      errorMessage := ""
      settled := none
      paused := false
      launches := [] }

/-- One scheduler event: some in-flight transport settles. -/
inductive RunStep (mc rd mr : Nat) : RunState → RunState → Prop where
  | settle (s : RunState) (j : Nat) (o : Outcome) (hj : j ∈ s.active) :
      RunStep mc rd mr s (settleStep mc rd mr s j o)

/-- States reachable by a run of `uploadChunksInParallel` on `chunks`. -/
def ReachableRun (mc rd mr : Nat) (chunks : List ChunkInfo) (s : RunState) : Prop :=
  Relation.ReflTransGen (RunStep mc rd mr) (initRun mc rd chunks) s

/-- Executable form of a run: fold a list of settlement events over a state
(events naming a chunk that is not in flight are ignored; `validRun` below
certifies that no event is ignored). -/
def runEvents (mc rd mr : Nat) (s : RunState) (evs : List (Nat × Outcome)) : RunState :=
  evs.foldl
    (fun t e => if e.1 ∈ t.active then settleStep mc rd mr t e.1 e.2 else t) s

/-- Checks that every event in the list settles a transport that is actually
in flight, so the event list denotes a genuine interleaving. -/
def validRun (mc rd mr : Nat) (s : RunState) : List (Nat × Outcome) → Bool
  | [] => true
  | e :: rest =>
    decide (e.1 ∈ s.active) && validRun mc rd mr (settleStep mc rd mr s e.1 e.2) rest

/- ## `uploadFile` and the session level -/

/-- `uploadFile` awaits the run's promise and reaches `finalizeUpload` only
when that promise resolved; a rejection jumps to the `catch` block. -/
def uploadFileFinalizes (s : RunState) : Bool :=
  match s.settled with
  | some none => true
  | _ => false

/-- Terminal behaviour of one `uploadFile(fileId)` promise, given the final
state of its scheduler run and the outcome of the finalize request:
completed, failed, or forever pending (`hung`) when the run never settles. -/
inductive FileOutcome where
  | completed
  | failed (msg : String)
  | hung
deriving Repr, DecidableEq

/-- `uploadFile`: a resolved run proceeds to finalize (whose failure message
is surfaced by the `catch` block); a rejected run fails with the run's
message; an unsettled run leaves `uploadFile` awaiting forever. -/
def uploadFileRun (s : RunState) (finalizeOk : Bool) (finalizeErr : String) : FileOutcome :=
  match s.settled with
  | none => .hung
  | some none => if finalizeOk then .completed else .failed finalizeErr
  | some (some m) => .failed m

/-- Session statistics (`UploadStats`); `endTime`, `duration` and
`averageSpeed` are `none` until `push` computes them. -/
structure UploadStats where
  totalFiles : Nat
  completedFiles : Nat
  failedFiles : Nat
  totalBytes : Nat
  uploadedBytes : Nat
  startTime : Nat
  endTime : Option Nat
  duration : Option Nat
  averageSpeed : Option Nat
deriving Repr, DecidableEq

/-- Session state owned by the `TurboPush` class: the queued files
(`fileId`, size), the planned chunk lists, the statistics, and the pause
flag. -/
structure SessionState where
  files : List (String × Nat)
  fileChunks : List (String × List ChunkInfo)
  stats : UploadStats
  isPaused : Bool
deriving Repr, DecidableEq

/-- The synchronous prefix of `push()` (`TurboPush.ts` lines 153-163): throw
`'TurboPush: No files to upload'` when the queue is empty, otherwise stamp
the start time, clear the pause flag and plan chunks for every file.  The
returned `Option String` is the thrown message. -/
def pushBegin (chunkSize now : Nat) (s : SessionState) : SessionState × Option String :=
  if s.files.length = 0 then
    (s, some "TurboPush: No files to upload")
  else
    ({ s with
        stats := { s.stats with startTime := now }
        isPaused := false
        fileChunks := s.files.map (fun f => (f.1, createChunks chunkSize f.2)) },
      none)

/-- Is this `uploadFile` outcome a failure? -/
def isFailedOutcome : FileOutcome → Bool
  | .failed _ => true
  | _ => false

/-- Does this `uploadFile` promise never settle? -/
def isHungOutcome : FileOutcome → Bool
  | .hung => true
  | _ => false

/-- The tail of `push()` after the per-file runs: `await Promise.allSettled`
resolves only if every `uploadFile` promise settles (result `none` models
`push` never completing and the completion callback never firing); when all
settle, the failed/completed counters incremented by the individual
`uploadFile` calls are reflected in the statistics, the end time, duration
and average speed are computed, and the completion callback is invoked once
(the returned `Nat` counts its invocations). -/
def pushComplete (st : UploadStats) (endT : Nat) (outcomes : List FileOutcome) :
    Option (UploadStats × Nat) :=
  if outcomes.any isHungOutcome then none
  else
    let duration := (endT - st.startTime) / 1000
    some
      ({ st with
          completedFiles :=
            st.completedFiles + outcomes.countP (fun o => o = FileOutcome.completed)
          failedFiles := st.failedFiles + outcomes.countP isFailedOutcome
          endTime := some endT
          duration := some duration
          averageSpeed := some (st.totalBytes / (if duration = 0 then 1 else duration)) },
        1)

/- ## `pause` / `resume` -/

/-- The `UploadProgress.status` enumeration. -/
inductive UploadStatus where
  | pending
  | uploading
  | completed
  | failed
  | paused
deriving Repr, DecidableEq

/-- The session data `pause`/`resume` act on: the global pause flag, the
`activeUploads` map (as the list of its keys, one per in-flight transport
across all tasks), a log of aborted keys, and each task's status. -/
structure PauseState where
  isPaused : Bool
  activeUploads : List String
  abortedKeys : List String
  statuses : List (String × UploadStatus)
deriving Repr, DecidableEq

/-- `pause()` (`TurboPush.ts` lines 186-197): set the flag, abort every
controller in `activeUploads`, clear the map, and flip every `uploading`
task to `paused`. -/
def pause (s : PauseState) : PauseState :=
  { isPaused := true
    activeUploads := []
    abortedKeys := s.abortedKeys ++ s.activeUploads
    statuses := s.statuses.map
      (fun p => (p.1, if p.2 = UploadStatus.uploading then UploadStatus.paused else p.2)) }

/-- The files `resume()` restarts: those with status `paused` or `pending`
(`TurboPush.ts` lines 199-209). -/
def resumeTargets (statuses : List (String × UploadStatus)) : List String :=
  (statuses.filter
    (fun p => p.2 = UploadStatus.paused ∨ p.2 = UploadStatus.pending)).map (fun p => p.1)

/- ## The server's reassembly service (`TurboPushEndpoint.php`) -/

/-- The server filesystem as `finalizeUpload` sees it: the per-upload temp
directory (`none` when absent) holding the chunk files by index (`none` for
a missing `chunk_...` file), and the destination file's bytes. -/
structure ServerStore where
  tempDir : Option (List (Option (List Nat)))
  output : Option (List Nat)
deriving Repr, DecidableEq

/-- `file_exists`/`fopen` of the chunk file for index `i`. -/
def chunkFile (chunks : List (Option (List Nat))) (i : Nat) : Option (List Nat) :=
  chunks.getD i none

/-- The presence-check loop of `finalizeUpload`: the first `i < totalChunks`
whose chunk file is missing, if any. -/
def firstMissingChunk (chunks : List (Option (List Nat))) (total : Nat) : Option Nat :=
  (List.range total).find? (fun i => (chunkFile chunks i).isNone)

/-- The merge loop: concatenate the chunk files in index order. -/
def mergedBytes (chunks : List (Option (List Nat))) (total : Nat) : List Nat :=
  ((List.range total).map (fun i => (chunkFile chunks i).getD [])).flatten

/-- `finalizeUpload` (`TurboPushEndpoint.php` lines 98-156): fail if the temp
directory is missing; fail at the first missing chunk index (before the
destination file is opened); otherwise stream the chunks in index order into
the destination, deleting each chunk and then the temp directory; finally
compare the destination's size with the declared size, deleting the
destination and failing on mismatch.  The `Option String` is the thrown
exception message. -/
def finalizeUpload (st : ServerStore) (fileSize totalChunks : Nat) :
    ServerStore × Option String :=
  match st.tempDir with
  | none => (st, some "Temp directory not found")
  | some chunks =>
    match firstMissingChunk chunks totalChunks with
    | some i => (st, some ("Missing chunk: " ++ toString i))
    | none =>
      let content := mergedBytes chunks totalChunks
      if content.length ≠ fileSize then
        ({ tempDir := none, output := none }, some "File size mismatch")
      else
        ({ tempDir := none, output := some content }, none)

/- ## Run invariant -/

/-- Wellformedness of a scheduler run state, preserved by `RunStep` from
`initRun mc rd chunks`.  `queue s` is the undispatched part of `pending`. -/
structure Inv (chunks : List ChunkInfo) (s : RunState) : Prop where
  storeLen : s.store.length = chunks.length
  currentLe : s.currentIndex ≤ s.pending.length
  pausedFalse : s.paused = false
  counts : s.completedCount = s.store.countP (fun c => c.uploaded)
  activeLt : ∀ j ∈ s.active, j < s.store.length
  queueLt : ∀ j ∈ queue s, j < s.store.length
  activeNotUp : ∀ j ∈ s.active, (s.store.getD j dfltChunk).uploaded = false
  queueNotUp : ∀ j ∈ queue s, (s.store.getD j dfltChunk).uploaded = false
  nodupActive : s.active.Nodup
  nodupQueue : (queue s).Nodup
  activeDisjQueue : ∀ j ∈ s.active, j ∉ queue s
  launchesNotUp : ∀ r ∈ s.launches, r.uploadedAtLaunch = false
  initUpNotActive : ∀ j, (chunks.getD j dfltChunk).uploaded = true → j ∉ s.active
  initUpNotQueue : ∀ j, (chunks.getD j dfltChunk).uploaded = true → j ∉ queue s
  initUpNotLaunched : ∀ j, (chunks.getD j dfltChunk).uploaded = true →
    ∀ r ∈ s.launches, r.idx ≠ j
  settledInv : ∀ m, s.settled = some m →
    s.active = [] ∧ s.pending.length ≤ s.currentIndex ∧
    (m = none ↔ s.completedCount = s.store.length) ∧
    ∀ msg, m = some msg → msg = errMsgOf s

end TurboPush

namespace TurboPush

/- ## Helper lemmas for the chunk planner -/

/-- `k < ⌈S/C⌉` (with the ceiling written `(S + C - 1) / C`) iff `k*C < S`. -/
theorem lt_ceilDiv_iff (S C k : Nat) (hC : 0 < C) :
    k < (S + C - 1) / C ↔ k * C < S := by
  rw [Nat.lt_iff_add_one_le, Nat.le_div_iff_mul_le hC, Nat.succ_mul]
  omega

/-- Telescoping sum of `g (i+1) - g i` over `List.range n`, for `g` with
nondecreasing steps (natural subtraction). -/
theorem sum_range_sub_of_step_mono (g : Nat → Nat) (hg : ∀ i, g i ≤ g (i + 1)) :
    ∀ n, ((List.range n).map (fun i => g (i + 1) - g i)).sum = g n - g 0 := by
  intro n
  induction n with
  | zero => simp
  | succ n ih =>
    have h0n : g 0 ≤ g n := by
      clear ih
      induction n with
      | zero => exact Nat.le_refl _
      | succ n ih => exact Nat.le_trans ih (hg n)
    rw [List.range_succ, List.map_append, List.sum_append, ih]
    simp only [List.map_cons, List.map_nil, List.sum_cons, List.sum_nil]
    have := hg n
    omega

/-- The entries of `createChunks`, by index. -/
theorem createChunks_getD (C S i : Nat) (hi : i < (createChunks C S).length) :
    (createChunks C S).getD i dfltChunk =
      { index := i, start := i * C, stop := min (i * C + C) S,
        attempts := 0, uploaded := false } := by
  rw [List.getD_eq_getElem _ _ hi]
  simp [createChunks]

/-- Claim C2: for every file size `S` and chunk size `C > 0`, `createChunks`
produces exactly `⌈S/C⌉` chunks, chunk `i` covering `[i*C, min((i+1)*C, S))`;
consecutive ranges are adjacent (no gaps or overlaps) and the range lengths
sum to `S`, so the ranges partition `[0, S)`. -/
theorem createChunks_partitions (S C : Nat) (hC : 0 < C) :
    (createChunks C S).length = (S + C - 1) / C
    ∧ (∀ i, i < (createChunks C S).length →
        (createChunks C S).getD i dfltChunk =
          { index := i, start := i * C, stop := min ((i + 1) * C) S,
            attempts := 0, uploaded := false })
    ∧ (∀ i, i + 1 < (createChunks C S).length →
        ((createChunks C S).getD (i + 1) dfltChunk).start =
          ((createChunks C S).getD i dfltChunk).stop)
    ∧ ((createChunks C S).map (fun c => c.stop - c.start)).sum = S := by
  have hlen : (createChunks C S).length = (S + C - 1) / C := by simp [createChunks]
  refine ⟨hlen, ?_, ?_, ?_⟩
  · intro i hi
    rw [createChunks_getD C S i hi, Nat.succ_mul]
  · intro i hi
    have hi1 : i < (createChunks C S).length := Nat.lt_of_succ_lt hi
    rw [createChunks_getD C S i hi1, createChunks_getD C S (i + 1) hi]
    have hlt : (i + 1) * C < S := by
      rw [← lt_ceilDiv_iff S C (i + 1) hC, ← hlen]
      exact hi
    simp only [Nat.succ_mul] at hlt ⊢
    omega
  · have hmap : (createChunks C S).map (fun c => c.stop - c.start) =
        (List.range ((S + C - 1) / C)).map
          (fun i => min ((i + 1) * C) S - min (i * C) S) := by
      unfold createChunks
      rw [List.map_map]
      refine List.map_congr_left ?_
      intro i hi
      have hi' : i < (S + C - 1) / C := List.mem_range.mp hi
      have hlt : i * C < S := (lt_ceilDiv_iff S C i hC).mp hi'
      simp only [Function.comp]
      rw [Nat.min_eq_left (Nat.le_of_lt hlt), Nat.succ_mul]
    rw [hmap, sum_range_sub_of_step_mono (fun i => min (i * C) S)
      (fun i => inf_le_inf_right S (Nat.mul_le_mul_right C (Nat.le_succ i)))]
    have hge : S ≤ (S + C - 1) / C * C := by
      by_contra h
      exact absurd ((lt_ceilDiv_iff S C _ hC).mpr (Nat.lt_of_not_le h))
        (Nat.lt_irrefl _)
    simp [Nat.min_eq_right hge]

/-- Witness for C2 at the spec's concrete scenario: a 10000-byte file with
chunk size 1000 yields 10 chunks partitioning `[0, 10000)`. -/
theorem createChunks_partitions_witness :
    0 < 1000
    ∧ ((createChunks 1000 10000).length = (10000 + 1000 - 1) / 1000
      ∧ (∀ i, i < (createChunks 1000 10000).length →
          (createChunks 1000 10000).getD i dfltChunk =
            { index := i, start := i * 1000, stop := min ((i + 1) * 1000) 10000,
              attempts := 0, uploaded := false })
      ∧ (∀ i, i + 1 < (createChunks 1000 10000).length →
          ((createChunks 1000 10000).getD (i + 1) dfltChunk).start =
            ((createChunks 1000 10000).getD i dfltChunk).stop)
      ∧ ((createChunks 1000 10000).map (fun c => c.stop - c.start)).sum = 10000) :=
  ⟨by decide, createChunks_partitions 10000 1000 (by decide)⟩

/-- Counterexample to C5: the constructor enforces no floor on `chunkSize`
(passing 1 byte stores 1, far below the 64 KiB floor that `setChunkSize`
enforces), and passing `maxRetries: 0` stores the default 3, not 0, because
`0` is falsy in `config.maxRetries || 3`. -/
theorem mkStoredConfig_counterexample :
    (mkStoredConfig { chunkSize := some 1, maxRetries := some 0 }).chunkSize = 1
    ∧ ¬ chunkSizeFloor ≤ (mkStoredConfig { chunkSize := some 1, maxRetries := some 0 }).chunkSize
    ∧ (mkStoredConfig { chunkSize := some 1, maxRetries := some 0 }).maxRetries = 3
    ∧ (mkStoredConfig { chunkSize := some 1, maxRetries := some 0 }).maxRetries ≠ 0 := by
  refine ⟨rfl, ?_, rfl, ?_⟩ <;> decide

/-- Claim C5 (amended): for every configuration passed to the constructor,
the stored `chunkSize` is the provided value whenever it is nonzero (the
constructor enforces no floor; the 64 KiB floor applies only through
`setChunkSize`) and the 1 MiB default otherwise; `maxConcurrentUploads` is
clamped into `[1, 10]`; `maxRetries` is nonnegative, equals the provided
value whenever that value is positive, and is the default 3 when the
provided value is 0; `retryDelay` is at least 100 ms and `timeout` at least
5000 ms; and `setChunkSize` enforces the 64 KiB floor. -/
theorem mkStoredConfig_normalises (c : TurboPushConfigIn) (b : Int) :
    (mkStoredConfig c).chunkSize = jsOr c.chunkSize (1024 * 1024)
    ∧ (∀ v, c.chunkSize = some v → v ≠ 0 → (mkStoredConfig c).chunkSize = v)
    ∧ 1 ≤ (mkStoredConfig c).maxConcurrentUploads
    ∧ (mkStoredConfig c).maxConcurrentUploads ≤ 10
    ∧ 0 ≤ (mkStoredConfig c).maxRetries
    ∧ (∀ v, c.maxRetries = some v → 0 < v → (mkStoredConfig c).maxRetries = v)
    ∧ (c.maxRetries = some 0 → (mkStoredConfig c).maxRetries = 3)
    ∧ 100 ≤ (mkStoredConfig c).retryDelay
    ∧ 5000 ≤ (mkStoredConfig c).timeout
    ∧ chunkSizeFloor ≤ (setChunkSize (mkStoredConfig c) b).chunkSize := by
  refine ⟨rfl, ?_, ?_, ?_, ?_, ?_, ?_, ?_, ?_, ?_⟩
  · intro v hv hv0
    simp [mkStoredConfig, jsOr, hv, hv0]
  · exact le_max_left 1 _
  · exact max_le (by norm_num) (min_le_left 10 _)
  · exact le_max_left 0 _
  · intro v hv hv0
    simp [mkStoredConfig, jsOr, hv, Int.ne_of_gt hv0]
    omega
  · intro hv
    simp [mkStoredConfig, jsOr, hv]
  · exact le_max_left 100 _
  · exact le_max_left 5000 _
  · exact le_max_left chunkSizeFloor b

/-- Witness for the amended C5 at a concrete configuration. -/
theorem mkStoredConfig_normalises_witness :
    (mkStoredConfig { chunkSize := some 1, maxRetries := some 0 }).chunkSize =
        jsOr (some 1) (1024 * 1024)
    ∧ (∀ v, (some 1 : Option Int) = some v → v ≠ 0 →
        (mkStoredConfig { chunkSize := some 1, maxRetries := some 0 }).chunkSize = v)
    ∧ 1 ≤ (mkStoredConfig { chunkSize := some 1, maxRetries := some 0 }).maxConcurrentUploads
    ∧ (mkStoredConfig { chunkSize := some 1, maxRetries := some 0 }).maxConcurrentUploads ≤ 10
    ∧ 0 ≤ (mkStoredConfig { chunkSize := some 1, maxRetries := some 0 }).maxRetries
    ∧ (∀ v, (some 0 : Option Int) = some v → 0 < v →
        (mkStoredConfig { chunkSize := some 1, maxRetries := some 0 }).maxRetries = v)
    ∧ ((some 0 : Option Int) = some 0 →
        (mkStoredConfig { chunkSize := some 1, maxRetries := some 0 }).maxRetries = 3)
    ∧ 100 ≤ (mkStoredConfig { chunkSize := some 1, maxRetries := some 0 }).retryDelay
    ∧ 5000 ≤ (mkStoredConfig { chunkSize := some 1, maxRetries := some 0 }).timeout
    ∧ chunkSizeFloor ≤
        (setChunkSize (mkStoredConfig { chunkSize := some 1, maxRetries := some 0 }) 7).chunkSize :=
  mkStoredConfig_normalises { chunkSize := some 1, maxRetries := some 0 } 7

/-- Claim C10: calling `push()` with an empty file queue throws
`'TurboPush: No files to upload'` before any chunk is planned or any state
is mutated: the session state is returned unchanged. -/
theorem pushBegin_empty_throws (chunkSize now : Nat) (s : SessionState)
    (h : s.files = []) :
    pushBegin chunkSize now s = (s, some "TurboPush: No files to upload") := by
  simp [pushBegin, h]

/-- The presence check finds nothing iff every chunk index below `total` is
present. -/
theorem firstMissingChunk_eq_none (chunks : List (Option (List Nat))) (total : Nat) :
    firstMissingChunk chunks total = none ↔ ∀ i, i < total → chunkFile chunks i ≠ none := by
  unfold firstMissingChunk
  rw [List.find?_eq_none]
  constructor
  · intro h i hi
    have := h i (List.mem_range.mpr hi)
    simpa [Option.isNone_iff_eq_none] using this
  · intro h i hi
    simpa [Option.isNone_iff_eq_none] using h i (List.mem_range.mp hi)

/-- The merged output's byte count is the sum of the chunk files' sizes. -/
theorem mergedBytes_length (chunks : List (Option (List Nat))) (total : Nat) :
    (mergedBytes chunks total).length =
      ((List.range total).map (fun i => ((chunkFile chunks i).getD []).length)).sum := by
  unfold mergedBytes
  rw [List.length_flatten, List.map_map]
  rfl

/-- Claim C3: for every finalize request on the upload's temp directory —
if all chunk indices `0..totalChunks-1` are present and their bytes total
the declared size, finalize succeeds and the destination file holds exactly
`declaredFileSize` bytes; if any chunk index is missing, finalize fails
before the destination file is created, leaving the store untouched; if the
concatenated size differs from the declared size, finalize deletes the
destination file and reports `File size mismatch`. -/
theorem finalizeUpload_correct (chunks : List (Option (List Nat)))
    (fileSize totalChunks : Nat) :
    ((∀ i, i < totalChunks → chunkFile chunks i ≠ none) →
      ((List.range totalChunks).map (fun i => ((chunkFile chunks i).getD []).length)).sum
          = fileSize →
      finalizeUpload ⟨some chunks, none⟩ fileSize totalChunks =
        ({ tempDir := none, output := some (mergedBytes chunks totalChunks) }, none)
      ∧ (mergedBytes chunks totalChunks).length = fileSize)
    ∧ ((∃ i, i < totalChunks ∧ chunkFile chunks i = none) →
      ∃ e, finalizeUpload ⟨some chunks, none⟩ fileSize totalChunks =
        (⟨some chunks, none⟩, some e))
    ∧ ((∀ i, i < totalChunks → chunkFile chunks i ≠ none) →
      (mergedBytes chunks totalChunks).length ≠ fileSize →
      finalizeUpload ⟨some chunks, none⟩ fileSize totalChunks =
        ({ tempDir := none, output := none }, some "File size mismatch")) := by
  refine ⟨?_, ?_, ?_⟩
  · intro hall hsum
    have hnone : firstMissingChunk chunks totalChunks = none :=
      (firstMissingChunk_eq_none chunks totalChunks).mpr hall
    have hlen : (mergedBytes chunks totalChunks).length = fileSize := by
      rw [mergedBytes_length]
      exact hsum
    refine ⟨?_, hlen⟩
    simp [finalizeUpload, hnone, hlen]
  · intro ⟨i, hi, hmiss⟩
    match hfind : firstMissingChunk chunks totalChunks with
    | none =>
      exact absurd hmiss ((firstMissingChunk_eq_none chunks totalChunks).mp hfind i hi)
    | some k =>
      exact ⟨"Missing chunk: " ++ toString k, by simp [finalizeUpload, hfind]⟩
  · intro hall hne
    have hnone : firstMissingChunk chunks totalChunks = none :=
      (firstMissingChunk_eq_none chunks totalChunks).mpr hall
    simp [finalizeUpload, hnone, hne]

/-- Witness for C3: merging two present chunks of total size 3 against a
declared size of 3 produces a 3-byte destination file. -/
theorem finalizeUpload_correct_witness :
    (∀ i, i < 2 → chunkFile [some [1, 2], some [3]] i ≠ none)
    ∧ ((List.range 2).map
        (fun i => ((chunkFile [some [1, 2], some [3]] i).getD []).length)).sum = 3
    ∧ finalizeUpload ⟨some [some [1, 2], some [3]], none⟩ 3 2 =
        ({ tempDir := none, output := some (mergedBytes [some [1, 2], some [3]] 2) }, none)
    ∧ (mergedBytes [some [1, 2], some [3]] 2).length = 3 :=
  ⟨by decide, by decide,
    ((finalizeUpload_correct [some [1, 2], some [3]] 3 2).1 (by decide) (by decide)).1,
    ((finalizeUpload_correct [some [1, 2], some [3]] 3 2).1 (by decide) (by decide)).2⟩

/- ## Scheduler helper lemmas -/

theorem getD_set_self {α : Type} (l : List α) (j : Nat) (a d : α) (h : j < l.length) :
    (l.set j a).getD j d = a := by
  rw [List.getD_eq_getElem?_getD, List.getElem?_set_self h]
  rfl

theorem getD_set_ne {α : Type} (l : List α) (i j : Nat) (a d : α) (h : i ≠ j) :
    (l.set i a).getD j d = l.getD j d := by
  rw [List.getD_eq_getElem?_getD, List.getElem?_set_ne h, ← List.getD_eq_getElem?_getD]

/-- The launch loop only dispatches work: every other field of the state is
untouched. -/
theorem launchLoopAux_const (mc rd : Nat) : ∀ fuel s,
    (launchLoopAux mc rd fuel s).store = s.store
    ∧ (launchLoopAux mc rd fuel s).pending = s.pending
    ∧ (launchLoopAux mc rd fuel s).completedCount = s.completedCount
    ∧ (launchLoopAux mc rd fuel s).uploadedBytes = s.uploadedBytes
    ∧ (launchLoopAux mc rd fuel s).hasError = s.hasError
    ∧ (launchLoopAux mc rd fuel s).errorMessage = s.errorMessage
    ∧ (launchLoopAux mc rd fuel s).settled = s.settled
    ∧ (launchLoopAux mc rd fuel s).paused = s.paused := by
  intro fuel
  induction fuel with
  | zero => intro s; simp [launchLoopAux]
  | succ n ih =>
    intro s
    unfold launchLoopAux
    split
    · simpa [launchChunk] using ih (launchChunk rd s)
    · simp

/-- Every `uploadChunk` call logged by the launch loop records the delay
`uploadChunk` computes from the chunk's attempt counter at call time. -/
theorem launchLoopAux_launches (mc rd : Nat) : ∀ fuel s,
    ∃ l, (launchLoopAux mc rd fuel s).launches = s.launches ++ l
      ∧ ∀ r ∈ l, r.delay = uploadChunkDelay rd r.attempts := by
  intro fuel
  induction fuel with
  | zero => intro s; exact ⟨[], by simp [launchLoopAux]⟩
  | succ n ih =>
    intro s
    unfold launchLoopAux
    split
    · obtain ⟨l, hl, hp⟩ := ih (launchChunk rd s)
      rw [hl]
      refine ⟨⟨s.pending.getD s.currentIndex 0,
          (s.store.getD (s.pending.getD s.currentIndex 0) dfltChunk).attempts,
          (s.store.getD (s.pending.getD s.currentIndex 0) dfltChunk).uploaded,
          uploadChunkDelay rd
            (s.store.getD (s.pending.getD s.currentIndex 0) dfltChunk).attempts⟩ :: l,
        ?_, ?_⟩
      · simp [launchChunk]
      · intro r hr
        rcases List.mem_cons.mp hr with h | h
        · rw [h]
        · exact hp r h
    · exact ⟨[], by simp⟩

/-- The launch loop never removes in-flight work, and if it launched nothing
it changed nothing. -/
theorem launchLoopAux_active (mc rd : Nat) : ∀ fuel s,
    s.active.length ≤ (launchLoopAux mc rd fuel s).active.length
    ∧ ((launchLoopAux mc rd fuel s).active.length = s.active.length →
        launchLoopAux mc rd fuel s = s) := by
  intro fuel
  induction fuel with
  | zero => intro s; exact ⟨Nat.le_refl _, fun _ => rfl⟩
  | succ n ih =>
    intro s
    unfold launchLoopAux
    split
    · obtain ⟨hle, _⟩ := ih (launchChunk rd s)
      have hlen : (launchChunk rd s).active.length = s.active.length + 1 := by
        simp [launchChunk]
      rw [hlen] at hle
      constructor
      · omega
      · intro h
        omega
    · exact ⟨Nat.le_refl _, fun _ => rfl⟩

/-- `uploadNext` only settles the promise or dispatches work: the store, the
queue contents, the counters and the error fields are untouched. -/
theorem uploadNext_const (mc rd : Nat) (s : RunState) :
    (uploadNext mc rd s).store = s.store
    ∧ (uploadNext mc rd s).pending = s.pending
    ∧ (uploadNext mc rd s).completedCount = s.completedCount
    ∧ (uploadNext mc rd s).uploadedBytes = s.uploadedBytes
    ∧ (uploadNext mc rd s).hasError = s.hasError
    ∧ (uploadNext mc rd s).errorMessage = s.errorMessage
    ∧ (uploadNext mc rd s).paused = s.paused := by
  unfold uploadNext
  split
  · split
    · simp
    · split <;> simp
  · split
    · simp
    · obtain ⟨h1, h2, h3, h4, h5, h6, _, h8⟩ :=
        launchLoopAux_const mc rd (s.pending.length - s.currentIndex) s
      exact ⟨h1, h2, h3, h4, h5, h6, h8⟩

/-- `uploadNext` only appends `uploadChunk` calls whose logged delay is the
one computed from the attempt counter at call time. -/
theorem uploadNext_launches (mc rd : Nat) (s : RunState) :
    ∃ l, (uploadNext mc rd s).launches = s.launches ++ l
      ∧ ∀ r ∈ l, r.delay = uploadChunkDelay rd r.attempts := by
  unfold uploadNext
  split
  · split
    · exact ⟨[], by simp⟩
    · split <;> exact ⟨[], by simp⟩
  · split
    · exact ⟨[], by simp⟩
    · simpa [launchLoop] using launchLoopAux_launches mc rd (s.pending.length - s.currentIndex) s

/-- Claim C6: when a chunk's transport attempt fails with its attempt
counter below `maxRetries`, the counter is incremented and the chunk is
re-enqueued at the back of the pending queue, behind all currently queued
chunks; the requeue itself performs no suspension — every `uploadChunk` call
logs exactly the delay computed at call time from the then-current attempt
counter, which for the requeued chunk's next call is the linear backoff
`retryDelay * (attempts + 1)`. -/
theorem settleStep_requeues (mc rd mr : Nat) (s : RunState) (j : Nat) (msg : String)
    (_hj : j ∈ s.active) (hlen : j < s.store.length)
    (hlt : (s.store.getD j dfltChunk).attempts < mr) :
    (settleStep mc rd mr s j (.fail msg)).pending = s.pending ++ [j]
    ∧ ((settleStep mc rd mr s j (.fail msg)).store.getD j dfltChunk).attempts
        = (s.store.getD j dfltChunk).attempts + 1
    ∧ (∃ l, (settleStep mc rd mr s j (.fail msg)).launches = s.launches ++ l
        ∧ ∀ r ∈ l, r.delay = uploadChunkDelay rd r.attempts)
    ∧ uploadChunkDelay rd ((s.store.getD j dfltChunk).attempts + 1)
        = rd * ((s.store.getD j dfltChunk).attempts + 1) := by
  unfold settleStep
  simp only [hlt, if_pos]
  refine ⟨?_, ?_, ?_, ?_⟩
  · exact (uploadNext_const mc rd _).2.1
  · rw [(uploadNext_const mc rd _).1]
    simp only
    rw [getD_set_self _ _ _ _ hlen]
  · simpa using uploadNext_launches mc rd _
  · simp [uploadChunkDelay]

/-- Witness for C6: a chunk with one prior attempt failing under
`maxRetries = 3` is requeued at the back with counter 2 and next-call delay
`2 * retryDelay`. -/
theorem settleStep_requeues_witness :
    (0 : Nat) ∈ [0]
    ∧ (0 : Nat) < 1
    ∧ (([⟨0, 0, 4, 1, false⟩] : List ChunkInfo).getD 0 dfltChunk).attempts < 3
    ∧ ((settleStep 2 50 3
          ⟨[⟨0, 0, 4, 1, false⟩], [0, 0], 2, [0], 0, 0, false, "", none, false, []⟩
          0 (.fail "net")).pending = [0, 0] ++ [0]
      ∧ ((settleStep 2 50 3
          ⟨[⟨0, 0, 4, 1, false⟩], [0, 0], 2, [0], 0, 0, false, "", none, false, []⟩
          0 (.fail "net")).store.getD 0 dfltChunk).attempts =
          (([⟨0, 0, 4, 1, false⟩] : List ChunkInfo).getD 0 dfltChunk).attempts + 1
      ∧ (∃ l, (settleStep 2 50 3
          ⟨[⟨0, 0, 4, 1, false⟩], [0, 0], 2, [0], 0, 0, false, "", none, false, []⟩
          0 (.fail "net")).launches = [] ++ l
          ∧ ∀ r ∈ l, r.delay = uploadChunkDelay 50 r.attempts)
      ∧ uploadChunkDelay 50
          ((([⟨0, 0, 4, 1, false⟩] : List ChunkInfo).getD 0 dfltChunk).attempts + 1) =
          50 * ((([⟨0, 0, 4, 1, false⟩] : List ChunkInfo).getD 0 dfltChunk).attempts + 1)) :=
  ⟨by decide, by decide, by decide,
    settleStep_requeues 2 50 3
      ⟨[⟨0, 0, 4, 1, false⟩], [0, 0], 2, [0], 0, 0, false, "", none, false, []⟩
      0 "net" (by decide) (by decide) (by decide)⟩

/-- Counterexample to C4: with `maxRetries = 0` and both chunks in flight,
chunk 0's exhaustion records `Failed chunk 0: e0` first, but chunk 1's later
exhaustion overwrites it, and the run rejects with `Failed chunk 1: e1` —
the recorded first failure does not win. -/
theorem errorMessage_overwritten_counterexample :
    validRun 2 0 0 (initRun 2 0 [⟨0, 0, 5, 0, false⟩, ⟨1, 5, 9, 0, false⟩])
        [(0, .fail "e0"), (1, .fail "e1")] = true
    ∧ (runEvents 2 0 0 (initRun 2 0 [⟨0, 0, 5, 0, false⟩, ⟨1, 5, 9, 0, false⟩])
        [(0, .fail "e0")]).errorMessage = "Failed chunk 0: e0"
    ∧ (runEvents 2 0 0 (initRun 2 0 [⟨0, 0, 5, 0, false⟩, ⟨1, 5, 9, 0, false⟩])
        [(0, .fail "e0"), (1, .fail "e1")]).settled =
        some (some "Failed chunk 1: e1")
    ∧ ("Failed chunk 1: e1" : String) ≠ "Failed chunk 0: e0" := by
  refine ⟨?_, ?_, ?_, ?_⟩ <;> decide

/-- Claim C4 (amended): when a chunk whose attempt counter has reached
`maxRetries` fails, the run's failure flag is set and the recorded message
becomes that chunk's message — even when a failure was already recorded, so
the terminal message is the one of the most recent retry exhaustion, not the
first.  The failure flag itself is never cleared by later settlements. -/
theorem settleStep_exhaustion_overwrites (mc rd mr : Nat) (s : RunState) (j : Nat)
    (msg : String) (o : Outcome) (_hj : j ∈ s.active)
    (hge : mr ≤ (s.store.getD j dfltChunk).attempts) :
    (settleStep mc rd mr s j (.fail msg)).hasError = true
    ∧ (settleStep mc rd mr s j (.fail msg)).errorMessage
        = failMsg (s.store.getD j dfltChunk).index msg
    ∧ (s.hasError = true → (settleStep mc rd mr s j o).hasError = true) := by
  have hnlt : ¬ (s.store.getD j dfltChunk).attempts < mr := Nat.not_lt.mpr hge
  refine ⟨?_, ?_, ?_⟩
  · unfold settleStep
    simp only [hnlt, if_neg, if_false]
    rw [(uploadNext_const mc rd _).2.2.2.2.1]
  · unfold settleStep
    simp only [hnlt, if_neg, if_false]
    rw [(uploadNext_const mc rd _).2.2.2.2.2.1]
  · intro herr
    match o with
    | .ok =>
      unfold settleStep
      rw [(uploadNext_const mc rd _).2.2.2.2.1]
      exact herr
    | .fail m =>
      unfold settleStep
      by_cases hc : (s.store.getD j dfltChunk).attempts < mr
      · simp only [hc, if_true]
        rw [(uploadNext_const mc rd _).2.2.2.2.1]
        exact herr
      · simp only [hc, if_false]
        rw [(uploadNext_const mc rd _).2.2.2.2.1]

/-- Witness for the amended C4: with `maxRetries = 0` and an earlier failure
already recorded, chunk 1's exhaustion overwrites the message with
`Failed chunk 1: e1`. -/
theorem settleStep_exhaustion_overwrites_witness :
    (1 : Nat) ∈ [1]
    ∧ (0 : Nat) ≤ (([⟨0, 0, 5, 0, false⟩, ⟨1, 5, 9, 0, false⟩] : List ChunkInfo).getD 1
        dfltChunk).attempts
    ∧ ((settleStep 2 0 0
          ⟨[⟨0, 0, 5, 0, false⟩, ⟨1, 5, 9, 0, false⟩], [0, 1], 2, [1], 0, 0, true,
            "Failed chunk 0: e0", none, false, []⟩ 1 (.fail "e1")).hasError = true
      ∧ (settleStep 2 0 0
          ⟨[⟨0, 0, 5, 0, false⟩, ⟨1, 5, 9, 0, false⟩], [0, 1], 2, [1], 0, 0, true,
            "Failed chunk 0: e0", none, false, []⟩ 1 (.fail "e1")).errorMessage =
          failMsg (([⟨0, 0, 5, 0, false⟩, ⟨1, 5, 9, 0, false⟩] : List ChunkInfo).getD 1
            dfltChunk).index "e1"
      ∧ ((true : Bool) = true → (settleStep 2 0 0
          ⟨[⟨0, 0, 5, 0, false⟩, ⟨1, 5, 9, 0, false⟩], [0, 1], 2, [1], 0, 0, true,
            "Failed chunk 0: e0", none, false, []⟩ 1 .ok).hasError = true)) :=
  ⟨by decide, by decide,
    settleStep_exhaustion_overwrites 2 0 0
      ⟨[⟨0, 0, 5, 0, false⟩, ⟨1, 5, 9, 0, false⟩], [0, 1], 2, [1], 0, 0, true,
        "Failed chunk 0: e0", none, false, []⟩ 1 "e1" .ok (by decide) (by decide)⟩

/- ## Invariant preservation -/

/-- Dispatching splits the queue at its head. -/
theorem queue_launchChunk (rd : Nat) (s : RunState)
    (h : s.currentIndex < s.pending.length) :
    queue s = s.pending.getD s.currentIndex 0 :: queue (launchChunk rd s) := by
  unfold queue launchChunk
  simp only
  rw [List.getD_eq_getElem _ _ h]
  exact List.drop_eq_getElem_cons h

/-- One launch preserves the run invariant (and keeps the promise pending). -/
theorem inv_launchChunk (chunks : List ChunkInfo) (rd : Nat) (s : RunState)
    (hs : Inv chunks s) (hset : s.settled = none)
    (h : s.currentIndex < s.pending.length) :
    Inv chunks (launchChunk rd s) ∧ (launchChunk rd s).settled = none := by
  have hq := queue_launchChunk rd s h
  have hjq : s.pending.getD s.currentIndex 0 ∈ queue s := by
    rw [hq]; exact List.mem_cons_self _ _
  have hqnodup := hs.nodupQueue
  rw [hq] at hqnodup
  have hjnotq' : s.pending.getD s.currentIndex 0 ∉ queue (launchChunk rd s) :=
    (List.nodup_cons.mp hqnodup).1
  have hsubq : ∀ k, k ∈ queue (launchChunk rd s) → k ∈ queue s := by
    intro k hk; rw [hq]; exact List.mem_cons_of_mem _ hk
  have hjnact : s.pending.getD s.currentIndex 0 ∉ s.active :=
    fun hmem => hs.activeDisjQueue _ hmem hjq
  refine ⟨⟨?_, ?_, ?_, ?_, ?_, ?_, ?_, ?_, ?_, ?_, ?_, ?_, ?_, ?_, ?_, ?_⟩, ?_⟩
  · simpa [launchChunk] using hs.storeLen
  · simp only [launchChunk]
    omega
  · simpa [launchChunk] using hs.pausedFalse
  · simpa [launchChunk] using hs.counts
  · intro k hk
    simp only [launchChunk, List.mem_append, List.mem_singleton] at hk
    rcases hk with hk | rfl
    · simpa [launchChunk] using hs.activeLt k hk
    · simpa [launchChunk] using hs.queueLt _ hjq
  · intro k hk
    simpa [launchChunk] using hs.queueLt k (hsubq k hk)
  · intro k hk
    simp only [launchChunk, List.mem_append, List.mem_singleton] at hk
    rcases hk with hk | rfl
    · simpa [launchChunk] using hs.activeNotUp k hk
    · simpa [launchChunk] using hs.queueNotUp _ hjq
  · intro k hk
    simpa [launchChunk] using hs.queueNotUp k (hsubq k hk)
  · simp only [launchChunk]
    rw [List.nodup_append]
    refine ⟨hs.nodupActive, List.nodup_singleton _, ?_⟩
    intro k hk hk'
    rw [List.mem_singleton] at hk'
    subst hk'
    exact hjnact hk
  · exact (List.nodup_cons.mp hqnodup).2
  · intro k hk
    simp only [launchChunk, List.mem_append, List.mem_singleton] at hk
    rcases hk with hk | rfl
    · exact fun hk' => hs.activeDisjQueue k hk (hsubq k hk')
    · exact hjnotq'
  · intro r hr
    simp only [launchChunk, List.mem_append, List.mem_singleton] at hr
    rcases hr with hr | rfl
    · exact hs.launchesNotUp r hr
    · exact hs.queueNotUp _ hjq
  · intro j₀ hup hk
    simp only [launchChunk, List.mem_append, List.mem_singleton] at hk
    rcases hk with hk | hk
    · exact hs.initUpNotActive j₀ hup hk
    · exact hs.initUpNotQueue j₀ hup (hk ▸ hjq)
  · intro j₀ hup hk
    exact hs.initUpNotQueue j₀ hup (hsubq j₀ hk)
  · intro j₀ hup r hr
    simp only [launchChunk, List.mem_append, List.mem_singleton] at hr
    rcases hr with hr | rfl
    · exact hs.initUpNotLaunched j₀ hup r hr
    · intro hidx
      simp only at hidx
      exact hs.initUpNotQueue j₀ hup (hidx ▸ hjq)
  · intro m hm
    change s.settled = some m at hm
    rw [hset] at hm
    cases hm
  · simpa [launchChunk] using hset

/-- The launch loop preserves the run invariant. -/
theorem inv_launchLoopAux (chunks : List ChunkInfo) (mc rd : Nat) : ∀ fuel s,
    Inv chunks s → s.settled = none →
    Inv chunks (launchLoopAux mc rd fuel s)
      ∧ (launchLoopAux mc rd fuel s).settled = none := by
  intro fuel
  induction fuel with
  | zero => intro s hs hset; exact ⟨hs, hset⟩
  | succ n ih =>
    intro s hs hset
    unfold launchLoopAux
    split
    next hg =>
      obtain ⟨hinv, hset'⟩ := inv_launchChunk chunks rd s hs hset hg.2.1
      exact ih (launchChunk rd s) hinv hset'
    · exact ⟨hs, hset⟩

/-- `uploadNext` preserves the run invariant. -/
theorem inv_uploadNext (chunks : List ChunkInfo) (mc rd : Nat) (s : RunState)
    (hs : Inv chunks s) : Inv chunks (uploadNext mc rd s) := by
  unfold uploadNext
  split
  next hg =>
    have hact : s.active = [] := List.length_eq_zero.mp hg.2
    split
    · exact hs
    · split
      next hcomp =>
        exact ⟨hs.storeLen, hs.currentLe, hs.pausedFalse, hs.counts, hs.activeLt,
          hs.queueLt, hs.activeNotUp, hs.queueNotUp, hs.nodupActive, hs.nodupQueue,
          hs.activeDisjQueue, hs.launchesNotUp, hs.initUpNotActive, hs.initUpNotQueue,
          hs.initUpNotLaunched, by
            intro m hm
            simp only at hm
            rcases Option.some_injective _ hm with rfl
            exact ⟨hact, hg.1, by simp [hcomp], by simp⟩⟩
      next hcomp =>
        exact ⟨hs.storeLen, hs.currentLe, hs.pausedFalse, hs.counts, hs.activeLt,
          hs.queueLt, hs.activeNotUp, hs.queueNotUp, hs.nodupActive, hs.nodupQueue,
          hs.activeDisjQueue, hs.launchesNotUp, hs.initUpNotActive, hs.initUpNotQueue,
          hs.initUpNotLaunched, by
            intro m hm
            simp only at hm
            rcases Option.some_injective _ hm with rfl
            refine ⟨hact, hg.1, by simp [hcomp], ?_⟩
            intro msg hmsg
            rcases Option.some_injective _ hmsg.symm with rfl
            rfl⟩
  next hg =>
    split
    · exact hs
    next hpe =>
      have hset : s.settled = none := by
        cases hsettled : s.settled with
        | none => rfl
        | some m =>
          obtain ⟨ha, hle, _, _⟩ := hs.settledInv m hsettled
          exact absurd ⟨hle, by rw [ha]; rfl⟩ hg
      exact (inv_launchLoopAux chunks mc rd _ s hs hset).1

/-- Counting uploaded chunks after marking index `j` uploaded. -/
theorem countP_set_uploaded_true (l : List ChunkInfo) (j : Nat) (c : ChunkInfo)
    (hj : j < l.length) (hold : (l.getD j dfltChunk).uploaded = false)
    (hnew : c.uploaded = true) :
    (l.set j c).countP (fun c => c.uploaded) = l.countP (fun c => c.uploaded) + 1 := by
  rw [List.countP_set _ _ _ _ hj, hnew]
  rw [List.getD_eq_getElem _ _ hj] at hold
  simp [hold]

/-- Counting uploaded chunks is unchanged when the replacement has the same
`uploaded` flag. -/
theorem countP_set_uploaded_same (l : List ChunkInfo) (j : Nat) (c : ChunkInfo)
    (hj : j < l.length) (hsame : c.uploaded = (l.getD j dfltChunk).uploaded) :
    (l.set j c).countP (fun c => c.uploaded) = l.countP (fun c => c.uploaded) := by
  rw [List.countP_set _ _ _ _ hj, hsame, List.getD_eq_getElem _ _ hj]
  by_cases h : l[j].uploaded = true
  · have hpos : 0 < l.countP (fun c => c.uploaded) :=
      List.countP_pos_iff.mpr ⟨l[j], List.getElem_mem hj, h⟩
    simp only [h, if_true]
    omega
  · simp [h]

/-- A settlement step preserves the run invariant. -/
theorem inv_settleStep (chunks : List ChunkInfo) (mc rd mr : Nat) (s : RunState)
    (j : Nat) (o : Outcome) (hs : Inv chunks s) (hj : j ∈ s.active) :
    Inv chunks (settleStep mc rd mr s j o) := by
  have hset : s.settled = none := by
    cases hsettled : s.settled with
    | none => rfl
    | some m =>
      obtain ⟨ha, _, _, _⟩ := hs.settledInv m hsettled
      rw [ha] at hj
      exact absurd hj (List.not_mem_nil j)
  have hjlt : j < s.store.length := hs.activeLt j hj
  have hjnotq : j ∉ queue s := hs.activeDisjQueue j hj
  have hjup : (s.store.getD j dfltChunk).uploaded = false := hs.activeNotUp j hj
  have herase : ∀ k, k ∈ s.active.erase j → k ≠ j ∧ k ∈ s.active := by
    intro k hk
    exact (hs.nodupActive.mem_erase_iff.mp hk)
  match o with
  | .ok =>
    unfold settleStep
    apply inv_uploadNext
    refine ⟨?_, hs.currentLe, hs.pausedFalse, ?_, ?_, ?_, ?_, ?_, ?_, hs.nodupQueue,
      ?_, hs.launchesNotUp, ?_, hs.initUpNotQueue, hs.initUpNotLaunched, ?_⟩
    · simpa using hs.storeLen
    · simp only
      rw [countP_set_uploaded_true s.store j _ hjlt hjup rfl, hs.counts]
    · intro k hk
      simp only [List.length_set]
      exact hs.activeLt k (herase k hk).2
    · intro k hk
      simp only [List.length_set]
      exact hs.queueLt k hk
    · intro k hk
      obtain ⟨hne, hmem⟩ := herase k hk
      simp only
      rw [getD_set_ne _ _ _ _ _ (fun h => hne h.symm)]
      exact hs.activeNotUp k hmem
    · intro k hk
      have hne : j ≠ k := fun h => hjnotq (h ▸ hk)
      simp only
      rw [getD_set_ne _ _ _ _ _ hne]
      exact hs.queueNotUp k hk
    · exact hs.nodupActive.erase j
    · intro k hk
      exact hs.activeDisjQueue k (herase k hk).2
    · intro j₀ hup hk
      exact hs.initUpNotActive j₀ hup (herase j₀ hk).2
    · intro m hm
      change s.settled = some m at hm
      rw [hset] at hm
      cases hm
  | .fail msg =>
    unfold settleStep
    by_cases hc : (s.store.getD j dfltChunk).attempts < mr
    · simp only [hc, if_true]
      apply inv_uploadNext
      have hqeq : queue { s with
          store := s.store.set j { s.store.getD j dfltChunk with
            attempts := (s.store.getD j dfltChunk).attempts + 1 },
          pending := s.pending ++ [j], active := s.active.erase j } =
          queue s ++ [j] := by
        unfold queue
        simp only
        exact List.drop_append_of_le_length hs.currentLe
      refine ⟨?_, ?_, hs.pausedFalse, ?_, ?_, ?_, ?_, ?_, ?_, ?_, ?_,
        hs.launchesNotUp, ?_, ?_, hs.initUpNotLaunched, ?_⟩
      · simpa using hs.storeLen
      · simp only [List.length_append, List.length_cons, List.length_nil]
        have := hs.currentLe
        omega
      · simp only
        rw [countP_set_uploaded_same s.store j
          { s.store.getD j dfltChunk with
            attempts := (s.store.getD j dfltChunk).attempts + 1 } hjlt rfl]
        exact hs.counts
      · intro k hk
        simp only [List.length_set]
        exact hs.activeLt k (herase k hk).2
      · intro k hk
        rw [hqeq] at hk
        simp only [List.length_set]
        rcases List.mem_append.mp hk with hk | hk
        · exact hs.queueLt k hk
        · rw [List.mem_singleton.mp hk]
          exact hjlt
      · intro k hk
        obtain ⟨hne, hmem⟩ := herase k hk
        simp only
        rw [getD_set_ne _ _ _ _ _ (fun h => hne h.symm)]
        exact hs.activeNotUp k hmem
      · intro k hk
        rw [hqeq] at hk
        simp only
        rcases List.mem_append.mp hk with hk | hk
        · have hne : j ≠ k := fun h => hjnotq (h ▸ hk)
          rw [getD_set_ne _ _ _ _ _ hne]
          exact hs.queueNotUp k hk
        · rw [List.mem_singleton.mp hk, getD_set_self _ _ _ _ hjlt]
          exact hjup
      · exact hs.nodupActive.erase j
      · rw [hqeq, List.nodup_append]
        refine ⟨hs.nodupQueue, List.nodup_singleton _, ?_⟩
        intro k hk hk'
        rw [List.mem_singleton] at hk'
        exact hjnotq (hk' ▸ hk)
      · intro k hk
        obtain ⟨hne, hmem⟩ := herase k hk
        rw [hqeq]
        intro hk'
        rcases List.mem_append.mp hk' with hk' | hk'
        · exact hs.activeDisjQueue k hmem hk'
        · exact hne (List.mem_singleton.mp hk')
      · intro j₀ hup hk
        exact hs.initUpNotActive j₀ hup (herase j₀ hk).2
      · intro j₀ hup
        rw [hqeq]
        intro hk
        rcases List.mem_append.mp hk with hk | hk
        · exact hs.initUpNotQueue j₀ hup hk
        · rw [List.mem_singleton.mp hk] at hup
          exact hs.initUpNotActive j hup hj
      · intro m hm
        change s.settled = some m at hm
        rw [hset] at hm
        cases hm
    · simp only [hc, if_false]
      apply inv_uploadNext
      refine ⟨hs.storeLen, hs.currentLe, hs.pausedFalse, hs.counts, ?_, hs.queueLt,
        ?_, hs.queueNotUp, hs.nodupActive.erase j, hs.nodupQueue, ?_,
        hs.launchesNotUp, ?_, hs.initUpNotQueue, hs.initUpNotLaunched, ?_⟩
      · intro k hk
        exact hs.activeLt k (herase k hk).2
      · intro k hk
        exact hs.activeNotUp k (herase k hk).2
      · intro k hk
        exact hs.activeDisjQueue k (herase k hk).2
      · intro j₀ hup hk
        exact hs.initUpNotActive j₀ hup (herase j₀ hk).2
      · intro m hm
        change s.settled = some m at hm
        rw [hset] at hm
        cases hm

/-- The initial state of a run satisfies the invariant. -/
theorem inv_initRun (mc rd : Nat) (chunks : List ChunkInfo) :
    Inv chunks (initRun mc rd chunks) := by
  unfold initRun
  apply inv_uploadNext
  have hqueue : queue
      { store := chunks,
        pending := (List.range chunks.length).filter
          (fun j => (chunks.getD j dfltChunk).uploaded = false),
        currentIndex := 0, active := [],
        completedCount := (chunks.filter (fun c => c.uploaded)).length,
        uploadedBytes := 0, hasError := false, errorMessage := "",
        settled := none, paused := false, launches := [] } =
      (List.range chunks.length).filter
        (fun j => (chunks.getD j dfltChunk).uploaded = false) := by
    unfold queue
    exact List.drop_zero _
  refine ⟨rfl, Nat.zero_le _, rfl, ?_, ?_, ?_, ?_, ?_, List.nodup_nil, ?_, ?_,
    ?_, ?_, ?_, ?_, ?_⟩
  · simp only
    rw [List.countP_eq_length_filter]
  · intro k hk
    exact absurd hk (List.not_mem_nil k)
  · intro k hk
    rw [hqueue] at hk
    have := (List.mem_filter.mp hk).1
    simpa using List.mem_range.mp this
  · intro k hk
    exact absurd hk (List.not_mem_nil k)
  · intro k hk
    rw [hqueue] at hk
    have := (List.mem_filter.mp hk).2
    exact of_decide_eq_true this
  · rw [hqueue]
    exact (List.nodup_range _).filter _
  · intro k hk
    exact absurd hk (List.not_mem_nil k)
  · intro r hr
    exact absurd hr (List.not_mem_nil r)
  · intro j₀ _ hk
    exact absurd hk (List.not_mem_nil j₀)
  · intro j₀ hup hk
    rw [hqueue] at hk
    have := of_decide_eq_true (List.mem_filter.mp hk).2
    rw [hup] at this
    cases this
  · intro j₀ _ r hr
    exact absurd hr (List.not_mem_nil r)
  · intro m hm
    cases hm

/-- Every reachable run state satisfies the invariant. -/
theorem reachable_inv (mc rd mr : Nat) (chunks : List ChunkInfo) (s : RunState)
    (h : ReachableRun mc rd mr chunks s) : Inv chunks s := by
  induction h with
  | refl => exact inv_initRun mc rd chunks
  | tail _ hbc ih =>
    cases hbc with
    | settle j o hj => exact inv_settleStep chunks mc rd mr _ j o ih hj

/-- Every `uploadNext` output with no in-flight transport is either settled
or stuck on the error flag with an undispatched queue. -/
theorem uploadNext_progress (mc rd : Nat) (hmc : 1 ≤ mc) (s : RunState)
    (hp : s.paused = false) :
    (uploadNext mc rd s).active = [] →
    (uploadNext mc rd s).settled.isSome
    ∨ ((uploadNext mc rd s).hasError = true
        ∧ (uploadNext mc rd s).currentIndex < (uploadNext mc rd s).pending.length) := by
  unfold uploadNext
  split
  next hg =>
    split
    next hsome => exact fun _ => Or.inl hsome
    next hnsome =>
      split
      next => exact fun _ => Or.inl rfl
      next => exact fun _ => Or.inl rfl
  next hg =>
    split
    next hpe =>
      intro hact
      rcases hpe with hp' | he
      · rw [hp] at hp'
        cases hp'
      · refine Or.inr ⟨he, ?_⟩
        have hal : s.active.length = 0 := by rw [hact]; rfl
        exact Nat.lt_of_not_le (fun hle' => hg ⟨hle', hal⟩)
    next hpe =>
      intro hact
      exfalso
      unfold launchLoop at hact
      obtain ⟨hle, heq⟩ :=
        launchLoopAux_active mc rd (s.pending.length - s.currentIndex) s
      have hlen0 : (launchLoopAux mc rd (s.pending.length - s.currentIndex) s).active.length
          = 0 := by rw [hact]; rfl
      have hs0 : s.active.length = 0 := by omega
      have hlt : s.currentIndex < s.pending.length :=
        Nat.lt_of_not_le (fun hle' => hg ⟨hle', hs0⟩)
      have herr : s.hasError = false := by
        cases he : s.hasError
        · rfl
        · exact absurd (Or.inr he) hpe
      have hfuel : s.pending.length - s.currentIndex =
          (s.pending.length - s.currentIndex - 1) + 1 := by omega
      rw [hfuel] at hlen0
      unfold launchLoopAux at hlen0
      rw [if_pos ⟨by omega, hlt, hp, herr⟩] at hlen0
      obtain ⟨hle', _⟩ := launchLoopAux_active mc rd
        (s.pending.length - s.currentIndex - 1) (launchChunk rd s)
      have hone : (launchChunk rd s).active.length = s.active.length + 1 := by
        simp [launchChunk]
      omega

/-- Every maximal reachable run state (no in-flight transport) is either
settled or stuck on the error flag with an undispatched requeued chunk. -/
theorem reachable_progress (mc rd mr : Nat) (hmc : 1 ≤ mc) (chunks : List ChunkInfo)
    (s : RunState) (h : ReachableRun mc rd mr chunks s) (hact : s.active = []) :
    s.settled.isSome
    ∨ (s.hasError = true ∧ s.currentIndex < s.pending.length) := by
  induction h with
  | refl =>
    unfold initRun at hact ⊢
    exact uploadNext_progress mc rd hmc _ rfl hact
  | @tail b c hab hbc _ =>
    cases hbc with
    | settle j o hj =>
      have hb := reachable_inv mc rd mr chunks b hab
      match o with
      | .ok =>
        unfold settleStep at hact ⊢
        exact uploadNext_progress mc rd hmc _ hb.pausedFalse hact
      | .fail msg =>
        unfold settleStep at hact ⊢
        by_cases hcond : (b.store.getD j dfltChunk).attempts < mr
        · simp only [hcond, if_true] at hact ⊢
          exact uploadNext_progress mc rd hmc _ hb.pausedFalse hact
        · simp only [hcond, if_false] at hact ⊢
          exact uploadNext_progress mc rd hmc _ hb.pausedFalse hact

/-- Counterexample to C1: a maximal run (no transport in flight, so no
event can ever settle it) in which chunk 1 exhausted its retries
(`maxRetries = 1`, two failures) and chunk 2 had already completed, yet the
promise is unsettled: chunk 0 was requeued after the failure flag was set,
so it is never relaunched and the queue never exhausts — the run hangs
instead of rejecting. -/
theorem run_hangs_counterexample :
    validRun 3 0 1 (initRun 3 0 [⟨0, 0, 10, 0, false⟩, ⟨1, 10, 20, 0, false⟩,
        ⟨2, 20, 25, 0, false⟩])
      [(2, .ok), (1, .fail "net"), (1, .fail "net"), (0, .fail "net")] = true
    ∧ (runEvents 3 0 1 (initRun 3 0 [⟨0, 0, 10, 0, false⟩, ⟨1, 10, 20, 0, false⟩,
        ⟨2, 20, 25, 0, false⟩])
      [(2, .ok), (1, .fail "net"), (1, .fail "net"), (0, .fail "net")]).active = []
    ∧ (runEvents 3 0 1 (initRun 3 0 [⟨0, 0, 10, 0, false⟩, ⟨1, 10, 20, 0, false⟩,
        ⟨2, 20, 25, 0, false⟩])
      [(2, .ok), (1, .fail "net"), (1, .fail "net"), (0, .fail "net")]).settled = none
    ∧ ((runEvents 3 0 1 (initRun 3 0 [⟨0, 0, 10, 0, false⟩, ⟨1, 10, 20, 0, false⟩,
        ⟨2, 20, 25, 0, false⟩])
      [(2, .ok), (1, .fail "net"), (1, .fail "net"), (0, .fail "net")]).store.getD 2
        dfltChunk).uploaded = true
    ∧ ((runEvents 3 0 1 (initRun 3 0 [⟨0, 0, 10, 0, false⟩, ⟨1, 10, 20, 0, false⟩,
        ⟨2, 20, 25, 0, false⟩])
      [(2, .ok), (1, .fail "net"), (1, .fail "net"), (0, .fail "net")]).store.getD 1
        dfltChunk).attempts = 1
    ∧ (runEvents 3 0 1 (initRun 3 0 [⟨0, 0, 10, 0, false⟩, ⟨1, 10, 20, 0, false⟩,
        ⟨2, 20, 25, 0, false⟩])
      [(2, .ok), (1, .fail "net"), (1, .fail "net"), (0, .fail "net")]).hasError = true
    ∧ (runEvents 3 0 1 (initRun 3 0 [⟨0, 0, 10, 0, false⟩, ⟨1, 10, 20, 0, false⟩,
        ⟨2, 20, 25, 0, false⟩])
      [(2, .ok), (1, .fail "net"), (1, .fail "net"), (0, .fail "net")]).currentIndex <
      (runEvents 3 0 1 (initRun 3 0 [⟨0, 0, 10, 0, false⟩, ⟨1, 10, 20, 0, false⟩,
        ⟨2, 20, 25, 0, false⟩])
      [(2, .ok), (1, .fail "net"), (1, .fail "net"), (0, .fail "net")]).pending.length := by
  refine ⟨?_, ?_, ?_, ?_, ?_, ?_, ?_⟩ <;> decide

/-- Claim C1 (amended): a scheduler run settles exactly when the pending
queue is exhausted and the active count is zero — in any maximal reachable
state (no transport in flight), the promise is settled iff the queue is
exhausted; it is resolved iff additionally `completedCount` equals the chunk
count, and otherwise it is rejected with the recorded failure message.  (The
completion check does run before the error short-circuit, but a run is *not*
guaranteed to settle after a retry exhaustion: a chunk requeued after the
failure flag is set is never relaunched, the queue never exhausts, and the
promise hangs — see the counterexample.) -/
theorem run_settles_iff (mc rd mr : Nat) (hmc : 1 ≤ mc) (chunks : List ChunkInfo)
    (s : RunState) (h : ReachableRun mc rd mr chunks s) (hmax : s.active = []) :
    (s.settled.isSome ↔ s.pending.length ≤ s.currentIndex)
    ∧ (s.settled = some none ↔
        (s.pending.length ≤ s.currentIndex ∧ s.completedCount = s.store.length))
    ∧ (s.pending.length ≤ s.currentIndex → s.completedCount ≠ s.store.length →
        s.settled = some (some (errMsgOf s))) := by
  have hinv := reachable_inv mc rd mr chunks s h
  have hpro := reachable_progress mc rd mr hmc chunks s h hmax
  have hsome_of_le : s.pending.length ≤ s.currentIndex → s.settled.isSome := by
    intro hle
    rcases hpro with hsome | ⟨_, hlt⟩
    · exact hsome
    · exact absurd hlt (Nat.not_lt.mpr hle)
  refine ⟨⟨?_, hsome_of_le⟩, ⟨?_, ?_⟩, ?_⟩
  · intro hsome
    obtain ⟨m, hm⟩ := Option.isSome_iff_exists.mp hsome
    exact (hinv.settledInv m hm).2.1
  · intro hm
    obtain ⟨_, hle, hiff, _⟩ := hinv.settledInv none hm
    exact ⟨hle, hiff.mp rfl⟩
  · rintro ⟨hle, hcnt⟩
    obtain ⟨m, hm⟩ := Option.isSome_iff_exists.mp (hsome_of_le hle)
    obtain ⟨_, _, hiff, _⟩ := hinv.settledInv m hm
    rw [hm, hiff.mpr hcnt]
  · intro hle hne
    obtain ⟨m, hm⟩ := Option.isSome_iff_exists.mp (hsome_of_le hle)
    obtain ⟨_, _, hiff, hmsg⟩ := hinv.settledInv m hm
    match m with
    | none => exact absurd (hiff.mp rfl) hne
    | some msg =>
      rw [hm, hmsg msg rfl]

/-- Witness for the amended C1 at a run whose only chunk is already uploaded:
the initial `uploadNext` resolves it immediately. -/
theorem run_settles_iff_witness :
    1 ≤ 2
    ∧ (initRun 2 0 [⟨0, 0, 5, 0, true⟩]).active = []
    ∧ (((initRun 2 0 [⟨0, 0, 5, 0, true⟩]).settled.isSome ↔
          (initRun 2 0 [⟨0, 0, 5, 0, true⟩]).pending.length ≤
            (initRun 2 0 [⟨0, 0, 5, 0, true⟩]).currentIndex)
      ∧ ((initRun 2 0 [⟨0, 0, 5, 0, true⟩]).settled = some none ↔
          ((initRun 2 0 [⟨0, 0, 5, 0, true⟩]).pending.length ≤
              (initRun 2 0 [⟨0, 0, 5, 0, true⟩]).currentIndex
            ∧ (initRun 2 0 [⟨0, 0, 5, 0, true⟩]).completedCount =
              (initRun 2 0 [⟨0, 0, 5, 0, true⟩]).store.length))
      ∧ ((initRun 2 0 [⟨0, 0, 5, 0, true⟩]).pending.length ≤
            (initRun 2 0 [⟨0, 0, 5, 0, true⟩]).currentIndex →
          (initRun 2 0 [⟨0, 0, 5, 0, true⟩]).completedCount ≠
            (initRun 2 0 [⟨0, 0, 5, 0, true⟩]).store.length →
          (initRun 2 0 [⟨0, 0, 5, 0, true⟩]).settled =
            some (some (errMsgOf (initRun 2 0 [⟨0, 0, 5, 0, true⟩]))))) :=
  ⟨by decide, by decide,
    run_settles_iff 2 0 0 (by decide) [⟨0, 0, 5, 0, true⟩]
      (initRun 2 0 [⟨0, 0, 5, 0, true⟩]) Relation.ReflTransGen.refl (by decide)⟩

/-- Claim C7: the finalize request is sent only after every chunk of the
file has been marked completed — `uploadFile` reaches `finalizeUpload` only
when the run resolved, resolving requires `completedCount` to equal the
chunk count, and then every chunk in the store carries `uploaded = true`. -/
theorem finalize_only_after_all_chunks (mc rd mr : Nat) (chunks : List ChunkInfo)
    (s : RunState) (h : ReachableRun mc rd mr chunks s)
    (hfin : uploadFileFinalizes s = true) :
    s.completedCount = s.store.length
    ∧ s.store.length = chunks.length
    ∧ ∀ c ∈ s.store, c.uploaded = true := by
  have hinv := reachable_inv mc rd mr chunks s h
  have hres : s.settled = some none := by
    unfold uploadFileFinalizes at hfin
    cases hs : s.settled with
    | none => simp [hs] at hfin
    | some m =>
      cases m with
      | none => rfl
      | some msg => simp [hs] at hfin
  obtain ⟨_, _, hiff, _⟩ := hinv.settledInv none hres
  have hcnt : s.completedCount = s.store.length := hiff.mp rfl
  refine ⟨hcnt, hinv.storeLen, ?_⟩
  have hall : s.store.countP (fun c => c.uploaded) = s.store.length := by
    rw [← hinv.counts]
    exact hcnt
  exact fun c hc => List.countP_eq_length.mp hall c hc

/-- Witness for C7: a run over a single already-uploaded chunk resolves at
once, and all chunks are uploaded. -/
theorem finalize_only_after_all_chunks_witness :
    uploadFileFinalizes (initRun 2 0 [⟨0, 0, 4, 0, true⟩]) = true
    ∧ ((initRun 2 0 [⟨0, 0, 4, 0, true⟩]).completedCount =
        (initRun 2 0 [⟨0, 0, 4, 0, true⟩]).store.length
      ∧ (initRun 2 0 [⟨0, 0, 4, 0, true⟩]).store.length =
        ([⟨0, 0, 4, 0, true⟩] : List ChunkInfo).length
      ∧ ∀ c ∈ (initRun 2 0 [⟨0, 0, 4, 0, true⟩]).store, c.uploaded = true) :=
  ⟨by decide,
    finalize_only_after_all_chunks 2 0 0 [⟨0, 0, 4, 0, true⟩]
      (initRun 2 0 [⟨0, 0, 4, 0, true⟩]) Relation.ReflTransGen.refl (by decide)⟩

/-- Claim C8: `pause` aborts every in-flight transport across all tasks
(every `activeUploads` key is aborted and the map is cleared) and flips
exactly the `uploading` statuses to `paused`; `resume` restarts schedulers
exactly for the tasks whose status is `paused` or `pending`; and a scheduler
run never dispatches a chunk whose `uploaded` flag is set — every
`uploadChunk` call is for a chunk not yet uploaded, and a chunk recorded as
uploaded when the run started is never dispatched at all. -/
theorem pause_resume_correct (p : PauseState) (l : List (String × UploadStatus))
    (id : String) (mc rd mr : Nat) (chunks : List ChunkInfo) (s : RunState)
    (h : ReachableRun mc rd mr chunks s) :
    ((pause p).isPaused = true
      ∧ (pause p).abortedKeys = p.abortedKeys ++ p.activeUploads
      ∧ (pause p).activeUploads = []
      ∧ (pause p).statuses = p.statuses.map
          (fun q => (q.1,
            if q.2 = UploadStatus.uploading then UploadStatus.paused else q.2)))
    ∧ (id ∈ resumeTargets l ↔
        ∃ st, (id, st) ∈ l ∧ (st = UploadStatus.paused ∨ st = UploadStatus.pending))
    ∧ (∀ r ∈ s.launches, r.uploadedAtLaunch = false)
    ∧ (∀ j, (chunks.getD j dfltChunk).uploaded = true →
        ∀ r ∈ s.launches, r.idx ≠ j) := by
  have hinv := reachable_inv mc rd mr chunks s h
  refine ⟨⟨rfl, rfl, rfl, rfl⟩, ⟨?_, ?_⟩, hinv.launchesNotUp, hinv.initUpNotLaunched⟩
  · intro hid
    unfold resumeTargets at hid
    obtain ⟨q, hq, hqid⟩ := List.mem_map.mp hid
    obtain ⟨hql, hqp⟩ := List.mem_filter.mp hq
    refine ⟨q.2, ?_, of_decide_eq_true hqp⟩
    rw [← hqid, Prod.mk.eta]
    exact hql
  · rintro ⟨st, hmem, hst⟩
    unfold resumeTargets
    exact List.mem_map.mpr
      ⟨(id, st), List.mem_filter.mpr ⟨hmem, decide_eq_true hst⟩, rfl⟩

/-- Witness for C8 at a concrete session and a run over one already-uploaded
chunk. -/
theorem pause_resume_correct_witness :
    (((pause ⟨false, ["a-0"], [], [("a", UploadStatus.uploading)]⟩).isPaused = true
      ∧ (pause ⟨false, ["a-0"], [], [("a", UploadStatus.uploading)]⟩).abortedKeys =
          [] ++ ["a-0"]
      ∧ (pause ⟨false, ["a-0"], [], [("a", UploadStatus.uploading)]⟩).activeUploads = []
      ∧ (pause ⟨false, ["a-0"], [], [("a", UploadStatus.uploading)]⟩).statuses =
          [("a", UploadStatus.uploading)].map
            (fun q => (q.1,
              if q.2 = UploadStatus.uploading then UploadStatus.paused else q.2)))
    ∧ ("a" ∈ resumeTargets [("a", UploadStatus.paused)] ↔
        ∃ st, ("a", st) ∈ [("a", UploadStatus.paused)]
          ∧ (st = UploadStatus.paused ∨ st = UploadStatus.pending))
    ∧ (∀ r ∈ (initRun 1 0 [⟨0, 0, 3, 0, true⟩]).launches, r.uploadedAtLaunch = false)
    ∧ (∀ j, (([⟨0, 0, 3, 0, true⟩] : List ChunkInfo).getD j dfltChunk).uploaded = true →
        ∀ r ∈ (initRun 1 0 [⟨0, 0, 3, 0, true⟩]).launches, r.idx ≠ j)) :=
  pause_resume_correct ⟨false, ["a-0"], [], [("a", UploadStatus.uploading)]⟩
    [("a", UploadStatus.paused)] "a" 1 0 0 [⟨0, 0, 3, 0, true⟩]
    (initRun 1 0 [⟨0, 0, 3, 0, true⟩]) Relation.ReflTransGen.refl

/-- A list of settled outcomes splits into completed and failed ones. -/
theorem countP_outcomes_partition : ∀ (outcomes : List FileOutcome),
    (∀ o ∈ outcomes, o ≠ FileOutcome.hung) →
    outcomes.countP (fun o => o = FileOutcome.completed)
      + outcomes.countP isFailedOutcome = outcomes.length := by
  intro outcomes
  induction outcomes with
  | nil => intro _; rfl
  | cons o t ih =>
    intro hns
    rw [List.countP_cons, List.countP_cons, List.length_cons,
      ← ih (fun x hx => hns x (List.mem_cons_of_mem _ hx))]
    cases o with
    | completed => simp [isFailedOutcome]; omega
    | failed m => simp [isFailedOutcome]; omega
    | hung => exact absurd rfl (hns _ (List.mem_cons_self _ _))

/-- Counterexample to C9: a session with two queued files, one completing
and one whose scheduler run hangs (its final state is maximal but unsettled),
never resolves `Promise.allSettled`, so `push` never completes and the
completion callback is never invoked. -/
theorem push_hangs_counterexample :
    validRun 2 0 1 (initRun 2 0 [⟨0, 0, 5, 0, false⟩, ⟨1, 5, 9, 0, false⟩])
        [(1, .fail "x"), (1, .fail "x"), (0, .fail "x")] = true
    ∧ (runEvents 2 0 1 (initRun 2 0 [⟨0, 0, 5, 0, false⟩, ⟨1, 5, 9, 0, false⟩])
        [(1, .fail "x"), (1, .fail "x"), (0, .fail "x")]).active = []
    ∧ uploadFileRun (runEvents 2 0 1
        (initRun 2 0 [⟨0, 0, 5, 0, false⟩, ⟨1, 5, 9, 0, false⟩])
        [(1, .fail "x"), (1, .fail "x"), (0, .fail "x")]) true "fin" = FileOutcome.hung
    ∧ pushComplete ⟨2, 0, 0, 14, 0, 0, none, none, none⟩ 99
        [FileOutcome.completed,
          uploadFileRun (runEvents 2 0 1
            (initRun 2 0 [⟨0, 0, 5, 0, false⟩, ⟨1, 5, 9, 0, false⟩])
            [(1, .fail "x"), (1, .fail "x"), (0, .fail "x")]) true "fin"] = none := by
  refine ⟨?_, ?_, ?_, ?_⟩ <;> decide

/-- Claim C9 (amended): provided every file's scheduler run settles, `push`
runs all queued files to settlement and then invokes the completion callback
exactly once with final statistics — `endTime`, `duration` and
`averageSpeed` are set, each file contributes to the completed or failed
counter according to its own outcome alone (one task's failure does not
abort the siblings), and the two counters account for every file.  (When
some run never settles, `push` never completes and the callback never fires
— see the counterexample.) -/
theorem push_settles_all (st : UploadStats) (endT : Nat)
    (outcomes : List FileOutcome)
    (hns : ∀ o ∈ outcomes, o ≠ FileOutcome.hung) :
    pushComplete st endT outcomes =
      some ({ st with
          completedFiles := st.completedFiles
            + outcomes.countP (fun o => o = FileOutcome.completed)
          failedFiles := st.failedFiles + outcomes.countP isFailedOutcome
          endTime := some endT
          duration := some ((endT - st.startTime) / 1000)
          averageSpeed := some (st.totalBytes /
            (if (endT - st.startTime) / 1000 = 0 then 1
              else (endT - st.startTime) / 1000)) }, 1)
    ∧ outcomes.countP (fun o => o = FileOutcome.completed)
        + outcomes.countP isFailedOutcome = outcomes.length := by
  refine ⟨?_, countP_outcomes_partition outcomes hns⟩
  have hany : outcomes.any isHungOutcome = false := by
    cases hb : outcomes.any isHungOutcome
    · rfl
    · obtain ⟨o, ho, hh⟩ := List.any_eq_true.mp hb
      cases o with
      | completed => cases hh
      | failed m => cases hh
      | hung => exact absurd rfl (hns _ ho)
  unfold pushComplete
  rw [hany]
  simp

/-- Witness for the amended C9: one completed and one failed file still
produce final statistics and a single completion-callback invocation. -/
theorem push_settles_all_witness :
    (∀ o ∈ [FileOutcome.completed, FileOutcome.failed "m"], o ≠ FileOutcome.hung)
    ∧ (pushComplete ⟨2, 0, 0, 100, 0, 0, none, none, none⟩ 5000
        [FileOutcome.completed, FileOutcome.failed "m"] =
        some ({ (⟨2, 0, 0, 100, 0, 0, none, none, none⟩ : UploadStats) with
            completedFiles := 0 + [FileOutcome.completed,
              FileOutcome.failed "m"].countP (fun o => o = FileOutcome.completed)
            failedFiles := 0 + [FileOutcome.completed,
              FileOutcome.failed "m"].countP isFailedOutcome
            endTime := some 5000
            duration := some ((5000 - 0) / 1000)
            averageSpeed := some (100 /
              (if (5000 - 0) / 1000 = 0 then 1 else (5000 - 0) / 1000)) }, 1)
      ∧ [FileOutcome.completed, FileOutcome.failed "m"].countP
            (fun o => o = FileOutcome.completed)
          + [FileOutcome.completed, FileOutcome.failed "m"].countP isFailedOutcome
          = ([FileOutcome.completed, FileOutcome.failed "m"] : List FileOutcome).length) :=
  ⟨by decide,
    push_settles_all ⟨2, 0, 0, 100, 0, 0, none, none, none⟩ 5000
      [FileOutcome.completed, FileOutcome.failed "m"] (by decide)⟩

/-- Witness for C10 on a concrete empty session. -/
theorem pushBegin_empty_throws_witness :
    ({ files := [], fileChunks := [], isPaused := false,
       stats := ⟨0, 0, 0, 0, 0, 0, none, none, none⟩ } : SessionState).files = []
    ∧ pushBegin 1024 77
        { files := [], fileChunks := [], isPaused := false,
          stats := ⟨0, 0, 0, 0, 0, 0, none, none, none⟩ } =
      ({ files := [], fileChunks := [], isPaused := false,
         stats := ⟨0, 0, 0, 0, 0, 0, none, none, none⟩ },
        some "TurboPush: No files to upload") :=
  ⟨rfl, pushBegin_empty_throws 1024 77 _ rfl⟩

end TurboPush
